import Mathlib

/-!
Verification of the multihost control plane against its design document.

The development shallowly embeds the TypeScript services of the control
plane (EncryptionService, PterodactylService, NodesService, AgentService)
as pure Lean functions over explicit state, and settles the documented
properties about them.

Machine integers are modelled as `Nat` (byte values live below 256 where
that matters); fallible code returns `Except`; database tables are lists
of records; the passage of time is an explicit `now : Nat` argument.
-/

namespace Multihost

/-! ## List helper lemmas

Positional facts about `List.set` / `List.getD` over appended lists,
used to reason about tampering with a byte blob at a given index. -/

theorem set_append_left {α : Type} (l₁ l₂ : List α) (i : Nat) (v : α)
    (h : i < l₁.length) : (l₁ ++ l₂).set i v = l₁.set i v ++ l₂ := by
  induction l₁ generalizing i with
  | nil => simp at h
  | cons a t ih =>
    cases i with
    | zero => simp
    | succ n =>
      simp only [List.cons_append, List.set, List.append_eq]
      rw [ih n (by simpa using h)]

theorem set_append_right {α : Type} (l₁ l₂ : List α) (i : Nat) (v : α)
    (h : l₁.length ≤ i) : (l₁ ++ l₂).set i v = l₁ ++ l₂.set (i - l₁.length) v := by
  induction l₁ generalizing i with
  | nil => simp
  | cons a t ih =>
    cases i with
    | zero => simp at h
    | succ n =>
      simp only [List.cons_append, List.set, List.length_cons, List.append_eq]
      rw [ih n (by simpa using h)]
      simp [Nat.succ_sub_succ]

theorem getD_append_left {α : Type} (l₁ l₂ : List α) (i : Nat) (d : α)
    (h : i < l₁.length) : (l₁ ++ l₂).getD i d = l₁.getD i d := by
  induction l₁ generalizing i with
  | nil => simp at h
  | cons a t ih =>
    cases i with
    | zero => simp [List.getD]
    | succ n =>
      simp only [List.cons_append, List.getD_cons_succ]
      exact ih n (by simpa using h)

theorem getD_append_right {α : Type} (l₁ l₂ : List α) (i : Nat) (d : α)
    (h : l₁.length ≤ i) : (l₁ ++ l₂).getD i d = l₂.getD (i - l₁.length) d := by
  induction l₁ generalizing i with
  | nil => simp
  | cons a t ih =>
    cases i with
    | zero => simp at h
    | succ n =>
      simp only [List.cons_append, List.getD_cons_succ, List.length_cons]
      rw [ih n (by simpa using h)]
      simp [Nat.succ_sub_succ]

theorem getD_set_self {α : Type} (l : List α) (i : Nat) (v d : α)
    (h : i < l.length) : (l.set i v).getD i d = v := by
  induction l generalizing i with
  | nil => simp at h
  | cons a t ih =>
    cases i with
    | zero => simp [List.getD]
    | succ n =>
      simp only [List.set, List.getD_cons_succ]
      exact ih n (by simpa using h)

theorem getD_take {α : Type} (l : List α) (j i : Nat) (d : α) (h : i < j) :
    (l.take j).getD i d = l.getD i d := by
  induction l generalizing i j with
  | nil => simp
  | cons a t ih =>
    cases j with
    | zero => omega
    | succ j' =>
      cases i with
      | zero => simp [List.getD]
      | succ i' =>
        simp only [List.take, List.getD_cons_succ]
        exact ih j' i' (by omega)

theorem getD_mem {α : Type} {l : List α} {i : Nat} (d : α) (h : i < l.length) :
    l.getD i d ∈ l := by
  induction l generalizing i with
  | nil => simp at h
  | cons a t ih =>
    cases i with
    | zero => simp [List.getD]
    | succ n =>
      simp only [List.getD_cons_succ]
      exact List.mem_cons_of_mem a (ih (by simpa using h))

theorem set_ne_self {α : Type} (l : List α) (i : Nat) (v d : α)
    (h : i < l.length) (hv : v ≠ l.getD i d) : l.set i v ≠ l := by
  intro heq
  have : (l.set i v).getD i d = l.getD i d := by rw [heq]
  rw [getD_set_self l i v d h] at this
  exact hv this

theorem xor_two_pow_ne (a j : Nat) : a ^^^ 2 ^ j ≠ a := by
  intro h
  have h2 : a ^^^ (a ^^^ 2 ^ j) = a ^^^ a := by rw [h]
  rw [← Nat.xor_assoc, Nat.xor_self, Nat.zero_xor] at h2
  have hpos : 0 < 2 ^ j := Nat.pos_pow_of_pos j (by omega)
  omega

/-! ## Secret Vault (`encryption.service.ts`, EncryptionService)

Byte strings are `List Nat` (a valid byte is `< 256`).  The base64
transport encoding is a bijection between blobs and their string forms
and is elided: the source decodes the string back to bytes before any
length check or slicing, so the embedding works on the decoded bytes.

Constants are those of the sodium library used by the source. -/

def NONCEBYTES : Nat := 24
def MACBYTES : Nat := 16
def KEYBYTES : Nat := 32

/-- Authentication tag of the secretbox model: 16 entries that bind the
key, the nonce and the message.  Entries are `≥ 256`, disjoint from
valid plaintext bytes, so a tag can never be forged out of message
bytes (this mirrors the unforgeability contract of the real MAC). -/
def tagOf (key : Nat) (nonce msg : List Nat) : List Nat :=
  [256 + key, 256 + Encodable.encode nonce, 256 + Encodable.encode msg] ++
    List.replicate 13 256

/-- Executable idealization of the external sodium primitive
`crypto_secretbox_easy` (the library itself is an external dependency,
not repository code): an authenticated ciphertext of length
`msg.length + MACBYTES` that opens only under the same key and nonce. -/
def secretboxSeal (key : Nat) (nonce msg : List Nat) : List Nat :=
  msg ++ tagOf key nonce msg

/-- Executable idealization of `crypto_secretbox_open_easy`: succeeds
exactly on genuine seals, returning the sealed message. -/
def secretboxOpen (key : Nat) (nonce c : List Nat) : Option (List Nat) :=
  if MACBYTES ≤ c.length then
    if c = secretboxSeal key nonce (c.take (c.length - MACBYTES)) then
      some (c.take (c.length - MACBYTES))
    else none
  else none

/-- `EncryptionService.encrypt`: seal the plaintext under a fresh nonce
and return `nonce ‖ ciphertext` (the authentication tag is part of the
sealed output, matching `Buffer.concat([nonce, ciphertext])`). -/
def encrypt (key : Nat) (nonce plaintext : List Nat) : List Nat :=
  nonce ++ secretboxSeal key nonce plaintext

/-- Body of `EncryptionService.decrypt`'s try block: length guard, then
slice off the nonce and open the remainder. -/
def decryptInner (key : Nat) (data : List Nat) : Except String (List Nat) :=
  if data.length < NONCEBYTES + MACBYTES then
    .error "Invalid encrypted data length"
  else
    match secretboxOpen key (data.take NONCEBYTES) (data.drop NONCEBYTES) with
    | some m => .ok m
    | none => .error "Decryption failed - invalid data or key"

/-- `EncryptionService.decrypt`: the catch block collapses every failure
into the single error message, so no failure detail escapes. -/
def decrypt (key : Nat) (data : List Nat) : Except String (List Nat) :=
  match decryptInner key data with
  | .ok m => .ok m
  | .error _ => .error "Decryption failed"

theorem tagOf_length (key : Nat) (nonce msg : List Nat) :
    (tagOf key nonce msg).length = MACBYTES := by
  simp [tagOf, MACBYTES]

theorem secretboxSeal_length (key : Nat) (nonce msg : List Nat) :
    (secretboxSeal key nonce msg).length = msg.length + MACBYTES := by
  simp [secretboxSeal, tagOf_length]

theorem secretboxOpen_eq_some_iff {key : Nat} {nonce c m : List Nat} :
    secretboxOpen key nonce c = some m ↔ c = secretboxSeal key nonce m := by
  constructor
  · intro h
    unfold secretboxOpen at h
    split at h
    · split at h
      · rename_i heq
        injection h with h'
        subst h'
        exact heq
      · exact absurd h (by simp)
    · exact absurd h (by simp)
  · intro h
    subst h
    unfold secretboxOpen
    have hlen : MACBYTES ≤ (secretboxSeal key nonce m).length := by
      rw [secretboxSeal_length]; omega
    rw [if_pos hlen]
    have htake : (secretboxSeal key nonce m).take
        ((secretboxSeal key nonce m).length - MACBYTES) = m := by
      rw [secretboxSeal_length, Nat.add_sub_cancel]
      unfold secretboxSeal
      rw [List.take_left]
    simp [htake]

theorem tagOf_inj {key key' : Nat} {nonce nonce' msg msg' : List Nat}
    (h : tagOf key nonce msg = tagOf key' nonce' msg') :
    key = key' ∧ nonce = nonce' ∧ msg = msg' := by
  unfold tagOf at h
  simp only [List.cons_append, List.nil_append, List.cons.injEq] at h
  obtain ⟨h1, h2, h3, _⟩ := h
  refine ⟨by omega, ?_, ?_⟩
  · exact Encodable.encode_injective (by omega)
  · exact Encodable.encode_injective (by omega)

theorem secretboxSeal_inj {key key' : Nat} {nonce nonce' msg msg' : List Nat}
    (h : secretboxSeal key nonce msg = secretboxSeal key' nonce' msg') :
    key = key' ∧ nonce = nonce' ∧ msg = msg' := by
  have hlen : msg.length = msg'.length := by
    have := congrArg List.length h
    rw [secretboxSeal_length, secretboxSeal_length] at this
    omega
  unfold secretboxSeal at h
  obtain ⟨hm, ht⟩ := List.append_inj h hlen
  obtain ⟨hk, hn, _⟩ := tagOf_inj ht
  exact ⟨hk, hn, hm⟩

theorem encrypt_length {key : Nat} {nonce m : List Nat}
    (hn : nonce.length = NONCEBYTES) :
    (encrypt key nonce m).length = NONCEBYTES + m.length + MACBYTES := by
  simp [encrypt, secretboxSeal_length, hn]; omega

theorem encrypt_take_nonce {key : Nat} {nonce m : List Nat}
    (hn : nonce.length = NONCEBYTES) :
    (encrypt key nonce m).take NONCEBYTES = nonce := by
  unfold encrypt
  rw [← hn, List.take_left]

theorem encrypt_drop_nonce {key : Nat} {nonce m : List Nat}
    (hn : nonce.length = NONCEBYTES) :
    (encrypt key nonce m).drop NONCEBYTES = secretboxSeal key nonce m := by
  unfold encrypt
  rw [← hn, List.drop_left]

/-- C6: decrypting an encryption under the same key returns the original
plaintext, for every plaintext and every (fresh, 24-byte) nonce. -/
theorem decrypt_encrypt (key : Nat) (nonce m : List Nat)
    (hn : nonce.length = NONCEBYTES) :
    decrypt key (encrypt key nonce m) = .ok m := by
  unfold decrypt decryptInner
  have hlen : ¬ (encrypt key nonce m).length < NONCEBYTES + MACBYTES := by
    rw [encrypt_length hn]; omega
  rw [if_neg hlen, encrypt_take_nonce hn, encrypt_drop_nonce hn]
  rw [show secretboxOpen key nonce (secretboxSeal key nonce m) = some m from
    secretboxOpen_eq_some_iff.mpr rfl]

/-- C6 witness: a concrete round trip. -/
theorem decrypt_encrypt_witness :
    decrypt 5 (encrypt 5 (List.replicate 24 7) [104, 105]) = .ok [104, 105] :=
  decrypt_encrypt 5 (List.replicate 24 7) [104, 105] (by decide)

/-! ### Tampered-input rejection -/

/-- Flip bit `j` of the byte at index `i` of a blob. -/
def flipBit (data : List Nat) (i j : Nat) : List Nat :=
  data.set i (data.getD i 0 ^^^ 2 ^ j)

theorem flipBit_length (data : List Nat) (i j : Nat) :
    (flipBit data i j).length = data.length := by
  simp [flipBit]

theorem flipBit_append_left {l₁ : List Nat} (l₂ : List Nat) {i : Nat} (j : Nat)
    (h : i < l₁.length) : flipBit (l₁ ++ l₂) i j = flipBit l₁ i j ++ l₂ := by
  unfold flipBit
  rw [getD_append_left _ _ _ _ h, set_append_left _ _ _ _ h]

theorem flipBit_append_right {l₁ : List Nat} (l₂ : List Nat) {i : Nat} (j : Nat)
    (h : l₁.length ≤ i) :
    flipBit (l₁ ++ l₂) i j = l₁ ++ flipBit l₂ (i - l₁.length) j := by
  unfold flipBit
  rw [getD_append_right _ _ _ _ h, set_append_right _ _ _ _ h]

theorem flipBit_ne_self {data : List Nat} {i : Nat} (j : Nat)
    (h : i < data.length) : flipBit data i j ≠ data :=
  set_ne_self data i _ 0 h (xor_two_pow_ne _ j)

/-- A successful decryption certifies that the blob is a genuine seal of
the result under the embedded nonce. -/
theorem decrypt_ok_iff {key : Nat} {d m : List Nat} :
    decrypt key d = .ok m ↔
      NONCEBYTES + MACBYTES ≤ d.length ∧
        d.drop NONCEBYTES = secretboxSeal key (d.take NONCEBYTES) m := by
  unfold decrypt decryptInner
  by_cases hl : d.length < NONCEBYTES + MACBYTES
  · rw [if_pos hl]
    simp only [Except.error.injEq]
    constructor
    · intro h; exact absurd h (by simp)
    · intro h; omega
  · rw [if_neg hl]
    cases hopen : secretboxOpen key (d.take NONCEBYTES) (d.drop NONCEBYTES) with
    | some m' =>
      have hseal := secretboxOpen_eq_some_iff.mp hopen
      simp only [Except.ok.injEq]
      constructor
      · intro h; subst h; exact ⟨by omega, hseal⟩
      · intro ⟨_, h2⟩
        rw [h2] at hseal
        exact (secretboxSeal_inj hseal).2.2.symm
    | none =>
      constructor
      · intro h; exact absurd h (by simp)
      · intro ⟨_, h2⟩
        have hsome : secretboxOpen key (d.take NONCEBYTES) (d.drop NONCEBYTES) = some m :=
          secretboxOpen_eq_some_iff.mpr h2
        rw [hopen] at hsome
        exact absurd hsome (by simp)

theorem decrypt_ok_or_error (key : Nat) (d : List Nat) :
    (∃ m, decrypt key d = .ok m) ∨ decrypt key d = .error "Decryption failed" := by
  unfold decrypt
  cases decryptInner key d with
  | ok m => exact Or.inl ⟨m, rfl⟩
  | error e => exact Or.inr rfl

theorem decrypt_truncated {key : Nat} {nonce m : List Nat}
    (hn : nonce.length = NONCEBYTES) (hm : ∀ b ∈ m, b < 256)
    (t : Nat) (ht : t < (encrypt key nonce m).length) :
    decrypt key ((encrypt key nonce m).take t) = .error "Decryption failed" := by
  rcases decrypt_ok_or_error key ((encrypt key nonce m).take t) with ⟨m'', hok⟩ | herr
  · exfalso
    obtain ⟨hlen, hstruct⟩ := decrypt_ok_iff.mp hok
    rw [List.length_take] at hlen
    have hLen := @encrypt_length key nonce m hn
    have hN : NONCEBYTES = 24 := rfl
    have hM : MACBYTES = 16 := rfl
    rw [hN, hM] at hLen hlen
    rw [hN] at hn
    have htL : t ≤ (encrypt key nonce m).length := le_of_lt ht
    rw [min_eq_left htL] at hlen
    -- the truncated blob still starts with the full nonce
    have htk : ((encrypt key nonce m).take t).take NONCEBYTES =
        (encrypt key nonce m).take NONCEBYTES := by
      rw [List.take_take]
      congr 1
      rw [hN]
      omega
    rw [htk, encrypt_take_nonce (by rw [hN]; exact hn)] at hstruct
    -- the ciphertext part is a proper prefix of the genuine seal
    have hdec : ((encrypt key nonce m).take t).drop NONCEBYTES =
        (secretboxSeal key nonce m).take (t - 24) := by
      unfold encrypt
      rw [List.take_append_eq_append_take,
        List.take_of_length_le (by omega : nonce.length ≤ t), hn, hN]
      rw [show (24 : Nat) = nonce.length from hn.symm, List.drop_left]
    rw [hdec] at hstruct
    -- compare the entry at index (t - 40): a message byte versus a tag entry
    have hslm := secretboxSeal_length key nonce m
    have hslm'' := secretboxSeal_length key nonce m''
    rw [hM] at hslm hslm''
    have hm''len : m''.length = t - 24 - 16 := by
      have hc := congrArg List.length hstruct
      rw [List.length_take] at hc
      omega
    have humlt : t - 24 - 16 < m.length := by omega
    have hEq := congrArg (fun l => l.getD (t - 24 - 16) 0) hstruct
    simp only at hEq
    -- left side is a plaintext byte
    have hLside : ((secretboxSeal key nonce m).take (t - 24)).getD (t - 24 - 16) 0 =
        m.getD (t - 24 - 16) 0 := by
      rw [getD_take _ _ _ _ (by omega)]
      unfold secretboxSeal
      rw [getD_append_left _ _ _ _ humlt]
    -- right side is the first tag entry, which is at least 256
    have hRside : (secretboxSeal key nonce m'').getD (t - 24 - 16) 0 =
        256 + key := by
      unfold secretboxSeal
      rw [getD_append_right _ _ _ _ (by omega), hm''len, Nat.sub_self]
      simp [tagOf]
    have hbyte : m.getD (t - 24 - 16) 0 < 256 := hm _ (getD_mem 0 humlt)
    rw [hLside, hRside] at hEq
    omega
  · exact herr

theorem decrypt_flipped {key : Nat} {nonce m : List Nat}
    (hn : nonce.length = NONCEBYTES)
    (i j : Nat) (hi : i < (encrypt key nonce m).length) :
    decrypt key (flipBit (encrypt key nonce m) i j) = .error "Decryption failed" := by
  rcases decrypt_ok_or_error key (flipBit (encrypt key nonce m) i j) with ⟨m'', hok⟩ | herr
  · exfalso
    obtain ⟨hlen, hstruct⟩ := decrypt_ok_iff.mp hok
    have hLen := @encrypt_length key nonce m hn
    by_cases h1 : i < NONCEBYTES
    · -- flip inside the nonce
      have hsplit : flipBit (encrypt key nonce m) i j =
          flipBit nonce i j ++ secretboxSeal key nonce m := by
        unfold encrypt
        exact flipBit_append_left _ j (by omega)
      have hflen : (flipBit nonce i j).length = NONCEBYTES := by
        rw [flipBit_length, hn]
      rw [hsplit] at hstruct
      rw [show NONCEBYTES = (flipBit nonce i j).length from hflen.symm] at hstruct
      rw [List.take_left, List.drop_left] at hstruct
      have := (secretboxSeal_inj hstruct).2.1
      exact flipBit_ne_self j (by omega) this.symm
    · -- flip inside the sealed part
      have hsplit : flipBit (encrypt key nonce m) i j =
          nonce ++ flipBit (secretboxSeal key nonce m) (i - NONCEBYTES) j := by
        unfold encrypt
        rw [flipBit_append_right _ j (by omega), hn]
      rw [hsplit] at hstruct
      rw [show NONCEBYTES = nonce.length from hn.symm] at hstruct
      rw [List.take_left, List.drop_left] at hstruct
      rw [hn] at hstruct
      by_cases h2 : i - NONCEBYTES < m.length
      · -- flip inside the ciphertext body
        have hbody : flipBit (secretboxSeal key nonce m) (i - NONCEBYTES) j =
            flipBit m (i - NONCEBYTES) j ++ tagOf key nonce m := by
          unfold secretboxSeal
          exact flipBit_append_left _ j h2
        rw [hbody] at hstruct
        have hm''len : m''.length = m.length := by
          have := congrArg List.length hstruct
          rw [List.length_append, flipBit_length, tagOf_length,
            secretboxSeal_length] at this
          omega
        unfold secretboxSeal at hstruct
        obtain ⟨hbodyeq, htageq⟩ := List.append_inj hstruct
          (by rw [flipBit_length, hm''len])
        have hmm : m = m'' := (tagOf_inj htageq).2.2
        rw [← hmm] at hbodyeq
        exact flipBit_ne_self j h2 hbodyeq
      · -- flip inside the authentication tag
        have htag : flipBit (secretboxSeal key nonce m) (i - NONCEBYTES) j =
            m ++ flipBit (tagOf key nonce m) (i - NONCEBYTES - m.length) j := by
          unfold secretboxSeal
          exact flipBit_append_right _ j (by omega)
        rw [htag] at hstruct
        have hm''len : m''.length = m.length := by
          have := congrArg List.length hstruct
          rw [List.length_append, flipBit_length, tagOf_length,
            secretboxSeal_length] at this
          omega
        unfold secretboxSeal at hstruct
        obtain ⟨hbodyeq, htageq⟩ := List.append_inj hstruct (by omega)
        rw [← hbodyeq] at htageq
        have hidx : i - NONCEBYTES - m.length < (tagOf key nonce m).length := by
          rw [tagOf_length]
          unfold NONCEBYTES MACBYTES at *
          omega
        exact flipBit_ne_self j hidx htageq
  · exact herr

theorem decrypt_wrong_key {key key' : Nat} {nonce m : List Nat}
    (hn : nonce.length = NONCEBYTES) (hk : key' ≠ key) :
    decrypt key' (encrypt key nonce m) = .error "Decryption failed" := by
  rcases decrypt_ok_or_error key' (encrypt key nonce m) with ⟨m'', hok⟩ | herr
  · exfalso
    obtain ⟨_, hstruct⟩ := decrypt_ok_iff.mp hok
    rw [encrypt_take_nonce hn, encrypt_drop_nonce hn] at hstruct
    exact hk (secretboxSeal_inj hstruct).1.symm
  · exact herr

theorem decrypt_error_uniform (key : Nat) (d : List Nat) (e : String)
    (h : decrypt key d = .error e) : e = "Decryption failed" := by
  unfold decrypt at h
  cases hinner : decryptInner key d with
  | ok m => rw [hinner] at h; exact absurd h (by simp)
  | error e' => rw [hinner] at h; injection h with h'; exact h'.symm

/-- C7: decrypt rejects, with the one undistinguished error, every
truncation of a genuine blob, every single-bit flip of it, and its
decryption under any other key; on every input the only possible error
is the uniform one.  (The secretbox primitive is taken at its
authenticated-encryption contract.) -/
theorem decrypt_rejects_tampering (key key' : Nat) (nonce m : List Nat)
    (hn : nonce.length = NONCEBYTES) (hm : ∀ b ∈ m, b < 256) :
    (∀ t, t < (encrypt key nonce m).length →
        decrypt key ((encrypt key nonce m).take t) = .error "Decryption failed") ∧
    (∀ i j, i < (encrypt key nonce m).length →
        decrypt key (flipBit (encrypt key nonce m) i j) = .error "Decryption failed") ∧
    (key' ≠ key → decrypt key' (encrypt key nonce m) = .error "Decryption failed") ∧
    (∀ d e, decrypt key d = .error e → e = "Decryption failed") := by
  refine ⟨?_, ?_, ?_, ?_⟩
  · intro t ht; exact decrypt_truncated hn hm t ht
  · intro i j hi; exact decrypt_flipped hn i j hi
  · intro hk; exact decrypt_wrong_key hn hk
  · intro d e h; exact decrypt_error_uniform key d e h

/-- C7 witness: concrete rejections of a truncation, a bit flip and a
wrong key on one genuine blob. -/
theorem decrypt_rejects_tampering_witness :
    decrypt 5 ((encrypt 5 (List.replicate 24 7) [9, 1]).take 10) =
      .error "Decryption failed" ∧
    decrypt 5 (flipBit (encrypt 5 (List.replicate 24 7) [9, 1]) 30 3) =
      .error "Decryption failed" ∧
    decrypt 6 (encrypt 5 (List.replicate 24 7) [9, 1]) =
      .error "Decryption failed" := by
  have hlen : (encrypt 5 (List.replicate 24 7) [9, 1]).length = 42 := by
    rw [encrypt_length (by decide)]
    decide
  have h := decrypt_rejects_tampering 5 6 (List.replicate 24 7) [9, 1]
    (by decide) (by decide)
  exact ⟨h.1 10 (by omega), h.2.1 30 3 (by omega), h.2.2.1 (by decide)⟩

/-! ## Orchestration Client construction (`pterodactyl.service.ts`,
PterodactylService constructor) -/

/-- The constructor of `PterodactylService`: requires both configuration
values, then tries to decrypt the configured API key and silently falls
back to the raw configured value when decryption fails (a warning is
logged; startup continues). -/
def pteroConstruct (encKey : Nat) (baseUrl : Option String)
    (apiKeyCfg : Option (List Nat)) : Except String (String × List Nat) :=
  match baseUrl, apiKeyCfg with
  | some url, some cfg =>
    match decrypt encKey cfg with
    | .ok plain => .ok (url, plain)
    | .error _ => .ok (url, cfg)
  | some _, none => .error "PTERODACTYL_URL and PTERODACTYL_API_KEY must be configured"
  | none, _ => .error "PTERODACTYL_URL and PTERODACTYL_API_KEY must be configured"

/-- C10: when decrypting the configured API key fails, construction
still succeeds and the raw configured value is used as the API key. -/
theorem pteroConstruct_fallback (encKey : Nat) (url : String) (cfg : List Nat)
    (e : String) (h : decrypt encKey cfg = .error e) :
    pteroConstruct encKey (some url) (some cfg) = .ok (url, cfg) := by
  simp only [pteroConstruct]
  rw [h]

/-- C10 witness: an undecryptable (too short) configured key is used
verbatim. -/
theorem pteroConstruct_fallback_witness :
    pteroConstruct 5 (some "https://panel.example.com") (some [1, 2, 3]) =
      .ok ("https://panel.example.com", [1, 2, 3]) :=
  pteroConstruct_fallback 5 "https://panel.example.com" [1, 2, 3]
    "Decryption failed" (by rfl)

/-! ## Data model (Prisma `Node` and `NodeMetric` rows, as used by the
embedded services) -/

inductive NodeStatus where
  | pending
  | installing
  | online
  | offline
  | error
deriving DecidableEq, Repr

structure Node where
  id : String
  tenantId : String
  name : String
  fqdn : String
  publicIp : String
  privateIp : Option String
  cpuCores : Nat
  memoryMb : Nat
  diskGb : Nat
  status : NodeStatus
  enrollmentToken : Option String
  enrollmentExpiresAt : Option Nat
  pterodactylId : Option Nat
  locationId : Option Nat
  daemonToken : Option (List Nat)
  lastHeartbeat : Option Nat
  agentVersion : Option String
  wingsVersion : Option String
deriving DecidableEq, Repr

/-- One `NodeMetric` row as created by the heartbeat handlers (the
database key and its server-side timestamp are generated outside the
service code; the code itself only supplies these columns). -/
structure MetricRow where
  nodeId : String
  cpuUsage : Nat
  memoryUsage : Nat
  diskUsage : Nat
  networkRx : Nat
  networkTx : Nat
deriving DecidableEq, Repr

/-- Errors thrown by the embedded service code: `NotFoundException` and
`UnauthorizedException` are the only exception types these paths use. -/
inductive ServiceError where
  | notFound (msg : String)
  | unauthorized (msg : String)
deriving DecidableEq, Repr

/-! ## Enrollment (`nodes.service.ts`, NodesService.enrollNode) -/

/-- The node payload sent by the agent with an enroll request. -/
structure NodeData where
  name : String
  fqdn : String
  publicIp : String
  privateIp : Option String
  cpuCores : Nat
  memoryMb : Nat
  diskGb : Nat
deriving DecidableEq, Repr

/-- Results of the Pterodactyl orchestration calls made during
enrollment (createLocation, createNode, getNodeConfiguration); the
external daemon is a collaborator, so its responses are parameters. -/
structure PteroEnv where
  locationId : Nat
  pteroNodeId : Nat
  daemonToken : List Nat
  nodeConfig : String
deriving DecidableEq, Repr

structure EnrollResponse where
  nodeId : String
  daemonConfig : String
deriving DecidableEq, Repr

/-- First phase of `enrollNode`: the `findUnique` on the enrollment
token followed by the combined absent-or-expired guard, which throws
one `NotFoundException` for both cases. -/
def enrollLookup (db : List Node) (token : String) (now : Nat) :
    Except ServiceError Node :=
  match db.find? (fun n => n.enrollmentToken == some token) with
  | none => .error (.notFound "Invalid or expired enrollment token")
  | some node =>
    if node.enrollmentExpiresAt.getD 0 < now then
      .error (.notFound "Invalid or expired enrollment token")
    else
      .ok node

/-- Per-row effect of the `prisma.node.update` of `enrollNode`: only
the row whose id matches is rewritten. -/
def enrollApplyFn (node : Node) (d : NodeData) (env : PteroEnv)
    (encKey : Nat) (nonceE : List Nat) (n : Node) : Node :=
  if n.id = node.id then
    { n with
      name := d.name
      fqdn := d.fqdn
      publicIp := d.publicIp
      privateIp := d.privateIp
      cpuCores := d.cpuCores
      memoryMb := d.memoryMb
      diskGb := d.diskGb
      pterodactylId := some env.pteroNodeId
      locationId := some env.locationId
      daemonToken := some (encrypt encKey nonceE env.daemonToken)
      status := .installing
      enrollmentToken := none
      enrollmentExpiresAt := none }
  else n

/-- The `prisma.node.update` step of `enrollNode`: an update keyed on
the node id (not a conditional update on the token field) that stores
the reported data, the orchestration results and the encrypted daemon
token, moves the node to `installing`, and clears the token. -/
def enrollApply (db : List Node) (node : Node) (d : NodeData) (env : PteroEnv)
    (encKey : Nat) (nonceE : List Nat) : List Node :=
  db.map (enrollApplyFn node d env encKey nonceE)

/-- Everything `enrollNode` does after the token check: the
orchestration calls, the node update, and the response; this straight
line contains no further token guard and cannot fail on a replayed
token. -/
def enrollFinish (db : List Node) (node : Node) (d : NodeData) (env : PteroEnv)
    (encKey : Nat) (nonceE : List Nat) : List Node × EnrollResponse :=
  (enrollApply db node d env encKey nonceE,
   { nodeId := node.id, daemonConfig := env.nodeConfig })

/-- `NodesService.enrollNode`, sequentially: look the token up, then
run the orchestration and the update. -/
def enrollNode (db : List Node) (token : String) (now : Nat) (d : NodeData)
    (env : PteroEnv) (encKey : Nat) (nonceE : List Nat) :
    Except ServiceError (List Node × EnrollResponse) :=
  match enrollLookup db token now with
  | .error e => .error e
  | .ok node => .ok (enrollFinish db node d env encKey nonceE)

/-- The database state after an `enrollNode` call: unchanged when the
call throws (the throw happens before any write). -/
def enrollRun (db : List Node) (token : String) (now : Nat) (d : NodeData)
    (env : PteroEnv) (encKey : Nat) (nonceE : List Nat) : List Node :=
  match enrollNode db token now d env encKey nonceE with
  | .ok (db', _) => db'
  | .error _ => db

/-- Two concurrent `enrollNode` calls on the same token in the
interleaving where both `findUnique` lookups complete before either
`update` is written — an interleaving the event loop permits, since the
lookup and the update are separate awaited statements and the update is
keyed on the node id with no compare-and-clear on the token field. -/
def enrollNodeRace (db : List Node) (token : String) (now : Nat)
    (d₁ d₂ : NodeData) (env₁ env₂ : PteroEnv) (encKey : Nat)
    (no₁ no₂ : List Nat) :
    Except ServiceError EnrollResponse × Except ServiceError EnrollResponse × List Node :=
  match enrollLookup db token now, enrollLookup db token now with
  | .ok n₁, .ok n₂ =>
    let r₁ := enrollFinish db n₁ d₁ env₁ encKey no₁
    let r₂ := enrollFinish r₁.1 n₂ d₂ env₂ encKey no₂
    (.ok r₁.2, .ok r₂.2, r₂.1)
  | .ok n₁, .error e₂ =>
    let r₁ := enrollFinish db n₁ d₁ env₁ encKey no₁
    (.ok r₁.2, .error e₂, r₁.1)
  | .error e₁, .ok n₂ =>
    let r₂ := enrollFinish db n₂ d₂ env₂ encKey no₂
    (.error e₁, .ok r₂.2, r₂.1)
  | .error e₁, .error e₂ => (.error e₁, .error e₂, db)

/-- Sample pending node used for concrete evaluations. -/
def cNode : Node :=
  { id := "n1", tenantId := "t1", name := "Pending Node", fqdn := "pending",
    publicIp := "0.0.0.0", privateIp := none, cpuCores := 0, memoryMb := 0,
    diskGb := 0, status := .pending, enrollmentToken := some "tok",
    enrollmentExpiresAt := some 100, pterodactylId := none, locationId := none,
    daemonToken := none, lastHeartbeat := none, agentVersion := none,
    wingsVersion := none }

/-- Sample enroll payload. -/
def cData : NodeData :=
  { name := "node-1", fqdn := "n1.example.com", publicIp := "1.2.3.4",
    privateIp := some "10.0.0.1", cpuCores := 4, memoryMb := 8192, diskGb := 100 }

/-- Sample orchestration results. -/
def cEnv : PteroEnv :=
  { locationId := 1, pteroNodeId := 2, daemonToken := [3], nodeConfig := "cfg" }

/-- C1 counterexample: with one pending node holding a valid token, the
race interleaving lets both callers succeed — neither call fails, and
no `AlreadyConsumed` error exists anywhere in the code's error set. -/
theorem enroll_race_both_succeed_cex :
    (enrollNodeRace [cNode] "tok" 50 cData cData cEnv cEnv 5 [1] [1]).1 =
      .ok { nodeId := "n1", daemonConfig := "cfg" } ∧
    (enrollNodeRace [cNode] "tok" 50 cData cData cEnv cEnv 5 [1] [1]).2.1 =
      .ok { nodeId := "n1", daemonConfig := "cfg" } :=
  ⟨rfl, rfl⟩

/-- C1 (amended): consumption clears the token, so a later sequential
call with the same token fails — but with the same `NotFoundException`
used for an unknown token, and only sequentially: there is no
compare-and-clear, so the concurrent race is not excluded. -/
theorem enroll_replay_notFound (db : List Node) (token : String)
    (now now' : Nat) (d d' : NodeData) (env env' : PteroEnv)
    (encKey encKey' : Nat) (no no' : List Nat) (node : Node)
    (_hok : enrollLookup db token now = .ok node)
    (huniq : ∀ n ∈ db, n.enrollmentToken = some token → n.id = node.id) :
    enrollNode (enrollApply db node d env encKey no) token now' d' env'
        encKey' no' =
      .error (.notFound "Invalid or expired enrollment token") := by
  have hnone : (enrollApply db node d env encKey no).find?
      (fun n => n.enrollmentToken == some token) = none := by
    rw [List.find?_eq_none]
    intro n' hn'
    obtain ⟨n₀, hn₀, hfn⟩ := List.mem_map.mp hn'
    unfold enrollApplyFn at hfn
    by_cases hid : n₀.id = node.id
    · rw [if_pos hid] at hfn
      rw [← hfn]
      simp
    · rw [if_neg hid] at hfn
      rw [← hfn]
      intro hbeq
      exact hid (huniq n₀ hn₀ (by simpa using hbeq))
  unfold enrollNode enrollLookup
  rw [hnone]

/-- C1 amended-claim witness: replaying the token after the winning
call fails with the not-found error. -/
theorem enroll_replay_notFound_witness :
    enrollNode (enrollApply [cNode] cNode cData cEnv 5 [1]) "tok" 60 cData
        cEnv 5 [1] =
      .error (.notFound "Invalid or expired enrollment token") :=
  enroll_replay_notFound [cNode] "tok" 50 60 cData cData cEnv cEnv 5 5 [1] [1]
    cNode (by rfl) (by decide)

/-- Sample node whose enrollment window has passed. -/
def cNodeExpired : Node := { cNode with enrollmentExpiresAt := some 10 }

/-- C2 counterexample: an expired token and an absent token produce the
very same `NotFoundException` value — there is no distinct `Expired`
error in the code. -/
theorem enroll_expired_same_as_absent_cex :
    enrollNode [cNodeExpired] "tok" 50 cData cEnv 5 [1] =
      .error (.notFound "Invalid or expired enrollment token") ∧
    enrollNode ([] : List Node) "tok" 50 cData cEnv 5 [1] =
      .error (.notFound "Invalid or expired enrollment token") :=
  ⟨rfl, rfl⟩

/-- C2 (amended): enrolling past `enrollmentExpiresAt` fails with the
same `NotFoundException` used for an absent token (not a distinct
`Expired` error), and the database is left unchanged — the node keeps
its `pending` status. -/
theorem enroll_expired_rejected (db : List Node) (token : String) (now : Nat)
    (d : NodeData) (env : PteroEnv) (encKey : Nat) (no : List Nat) (node : Node)
    (hfind : db.find? (fun n => n.enrollmentToken == some token) = some node)
    (hexp : node.enrollmentExpiresAt.getD 0 < now) :
    enrollNode db token now d env encKey no =
      .error (.notFound "Invalid or expired enrollment token") ∧
    enrollRun db token now d env encKey no = db := by
  have hlook : enrollLookup db token now =
      .error (.notFound "Invalid or expired enrollment token") := by
    unfold enrollLookup
    rw [hfind]
    dsimp only
    rw [if_pos hexp]
  constructor
  · unfold enrollNode
    rw [hlook]
  · unfold enrollRun enrollNode
    rw [hlook]

/-- C2 amended-claim witness: a concrete expired enrollment is rejected
and the state is untouched. -/
theorem enroll_expired_rejected_witness :
    enrollNode [cNodeExpired] "tok" 50 cData cEnv 5 [1] =
      .error (.notFound "Invalid or expired enrollment token") ∧
    enrollRun [cNodeExpired] "tok" 50 cData cEnv 5 [1] = [cNodeExpired] :=
  enroll_expired_rejected [cNodeExpired] "tok" 50 cData cEnv 5 [1] cNodeExpired
    (by rfl) (by decide)

/-! ## Heartbeat Processor (`agent.service.ts`, AgentService.handleHeartbeat) -/

structure SystemMetrics where
  cpuUsage : Nat
  memoryUsage : Nat
  diskUsage : Nat
  networkRx : Option Nat
  networkTx : Option Nat
deriving DecidableEq, Repr

structure HeartbeatPayload where
  agentVersion : Option String
  wingsVersion : Option String
  system : Option SystemMetrics
deriving DecidableEq, Repr

/-- Control-plane state touched by a heartbeat: the node table and the
metric table. -/
structure CPState where
  nodes : List Node
  metrics : List MetricRow
deriving DecidableEq, Repr

/-- The `prisma.node.update` of `handleHeartbeat`: refresh the
heartbeat timestamp, set the status to `online` (unconditionally — no
check of the previous status), and store the version strings. -/
def hbNodeUpdate (n : Node) (p : HeartbeatPayload) (now : Nat) : Node :=
  { n with
    lastHeartbeat := some now
    status := .online
    agentVersion := p.agentVersion
    wingsVersion := p.wingsVersion }

/-- `AgentService.handleHeartbeat`: update the node row, then — when a
system payload is present — `create` (insert) a fresh metric row. -/
def handleHeartbeat (s : CPState) (nodeId : String) (p : HeartbeatPayload)
    (now : Nat) : CPState :=
  { nodes := s.nodes.map (fun n => if n.id = nodeId then hbNodeUpdate n p now else n),
    metrics :=
      match p.system with
      | some sys =>
        s.metrics ++
          [{ nodeId := nodeId, cpuUsage := sys.cpuUsage,
             memoryUsage := sys.memoryUsage, diskUsage := sys.diskUsage,
             networkRx := sys.networkRx.getD 0, networkTx := sys.networkTx.getD 0 }]
      | none => s.metrics }

/-- Sample heartbeat payload with a system section. -/
def cPayload : HeartbeatPayload :=
  { agentVersion := some "1.0.0", wingsVersion := some "1.11.0",
    system := some { cpuUsage := 12, memoryUsage := 30, diskUsage := 40,
                     networkRx := some 100, networkTx := some 200 } }

/-- Sample node in the terminal `error` state. -/
def cErrNode : Node := { cNode with status := .error, enrollmentToken := none }

/-- C3 counterexample: a node in the `error` state is moved to `online`
by a heartbeat — the update carries no guard on the previous status. -/
theorem heartbeat_error_to_online_cex :
    cErrNode.status = .error ∧
    (handleHeartbeat ⟨[cErrNode], []⟩ "n1" cPayload 9).nodes.map Node.status =
      [.online] :=
  ⟨rfl, rfl⟩

/-- C3 (amended): `handleHeartbeat` always sets
`lastHeartbeatAt = now`, stores the version strings, and sets the
status to `online` unconditionally — including for a node whose status
is `error`, which is therefore moved out of `error`. -/
theorem handleHeartbeat_forces_online (s : CPState) (nodeId : String)
    (p : HeartbeatPayload) (now : Nat) (n : Node)
    (hn : n ∈ s.nodes) (hid : n.id = nodeId) :
    hbNodeUpdate n p now ∈ (handleHeartbeat s nodeId p now).nodes ∧
    (hbNodeUpdate n p now).status = .online ∧
    (hbNodeUpdate n p now).lastHeartbeat = some now ∧
    (hbNodeUpdate n p now).agentVersion = p.agentVersion := by
  refine ⟨?_, rfl, rfl, rfl⟩
  unfold handleHeartbeat
  exact List.mem_map.mpr ⟨n, hn, by rw [if_pos hid]⟩

/-- C3 amended-claim witness: the error-state node concretely ends up
online with the new heartbeat timestamp. -/
theorem handleHeartbeat_forces_online_witness :
    hbNodeUpdate cErrNode cPayload 9 ∈
      (handleHeartbeat ⟨[cErrNode], []⟩ "n1" cPayload 9).nodes ∧
    (hbNodeUpdate cErrNode cPayload 9).status = .online ∧
    (hbNodeUpdate cErrNode cPayload 9).lastHeartbeat = some 9 ∧
    (hbNodeUpdate cErrNode cPayload 9).agentVersion = cPayload.agentVersion :=
  handleHeartbeat_forces_online ⟨[cErrNode], []⟩ "n1" cPayload 9 cErrNode
    (by decide) (by decide)

/-- C5 counterexample: replaying an identical heartbeat payload is not
a no-op — the second call inserts a second metric row, so the stored
state differs after the replay. -/
theorem heartbeat_replay_not_idempotent_cex :
    (handleHeartbeat (handleHeartbeat ⟨[cNode], []⟩ "n1" cPayload 9) "n1"
        cPayload 9).metrics.length = 2 ∧
    (handleHeartbeat ⟨[cNode], []⟩ "n1" cPayload 9).metrics.length = 1 ∧
    handleHeartbeat (handleHeartbeat ⟨[cNode], []⟩ "n1" cPayload 9) "n1"
        cPayload 9 ≠
      handleHeartbeat ⟨[cNode], []⟩ "n1" cPayload 9 := by
  refine ⟨rfl, rfl, ?_⟩
  decide

/-- C5 (amended): the node-row update of `handleHeartbeat` is
idempotent under replay, but each delivery carrying a system payload
appends a fresh metric row via an unconditional insert: a replay adds a
second row — samples are not keyed by `(nodeId, timestamp)`. -/
theorem handleHeartbeat_replay (s : CPState) (nodeId : String)
    (p : HeartbeatPayload) (now : Nat) (hsys : p.system.isSome) :
    (handleHeartbeat (handleHeartbeat s nodeId p now) nodeId p now).nodes =
      (handleHeartbeat s nodeId p now).nodes ∧
    (handleHeartbeat (handleHeartbeat s nodeId p now) nodeId p now).metrics.length =
      s.metrics.length + 2 ∧
    (handleHeartbeat s nodeId p now).metrics.length = s.metrics.length + 1 := by
  obtain ⟨sys, hsys'⟩ := Option.isSome_iff_exists.mp hsys
  refine ⟨?_, ?_, ?_⟩
  · show (List.map _ (List.map _ s.nodes)) = List.map _ s.nodes
    rw [List.map_map]
    apply List.map_congr_left
    intro n _
    by_cases h : n.id = nodeId
    · simp only [Function.comp_apply, if_pos h]
      have hid : (hbNodeUpdate n p now).id = n.id := rfl
      rw [if_pos (hid.trans h ▸ rfl)]
      rfl
    · simp only [Function.comp_apply, if_neg h, if_neg h]
  · simp [handleHeartbeat, hsys']
  · simp [handleHeartbeat, hsys']

/-- C5 amended-claim witness: two identical deliveries leave two rows
on a concrete state. -/
theorem handleHeartbeat_replay_witness :
    (handleHeartbeat (handleHeartbeat ⟨[cErrNode], []⟩ "n1" cPayload 9) "n1"
        cPayload 9).nodes =
      (handleHeartbeat ⟨[cErrNode], []⟩ "n1" cPayload 9).nodes ∧
    (handleHeartbeat (handleHeartbeat ⟨[cErrNode], []⟩ "n1" cPayload 9) "n1"
        cPayload 9).metrics.length = 2 ∧
    (handleHeartbeat ⟨[cErrNode], []⟩ "n1" cPayload 9).metrics.length = 1 :=
  handleHeartbeat_replay ⟨[cErrNode], []⟩ "n1" cPayload 9 (by decide)

/-! ## Agent credential (`agent.service.ts`, generateAgentToken and
authenticateAgent)

The jsonwebtoken library is external; the token is modelled
symbolically as its signed payload, secret and validity window, with
verification checking the secret and the expiry. -/

structure AgentToken where
  claims : List (String × String)
  secret : String
  iat : Nat
  exp : Nat
deriving DecidableEq, Repr

def thirtyDaysSeconds : Nat := 30 * 24 * 60 * 60

/-- `AgentService.generateAgentToken`: sign `{ nodeId, type: 'agent' }`
with the agent secret and a 30-day expiry. -/
def generateAgentToken (nodeId : String) (secret : String) (now : Nat) :
    AgentToken :=
  { claims := [("nodeId", nodeId), ("type", "agent")],
    secret := secret, iat := now, exp := now + thirtyDaysSeconds }

/-- `jwtService.verify`: accept only the right secret within the
validity window. -/
def jwtVerify (tok : AgentToken) (secret : String) (now : Nat) :
    Except ServiceError (List (String × String)) :=
  if tok.secret = secret then
    if now < tok.exp then .ok tok.claims
    else .error (.unauthorized "Invalid agent token")
  else .error (.unauthorized "Invalid agent token")

/-- `AgentService.authenticateAgent`: verify the token, then load the
node by the `nodeId` claim; every failure (including the inner
node-not-found throw) is re-thrown by the catch block as the same
`UnauthorizedException`. -/
def authenticateAgent (db : List Node) (tok : AgentToken) (secret : String)
    (now : Nat) : Except ServiceError Node :=
  match jwtVerify tok secret now with
  | .error _ => .error (.unauthorized "Invalid agent token")
  | .ok claims =>
    match claims.lookup "nodeId" with
    | none => .error (.unauthorized "Invalid agent token")
    | some nid =>
      match db.find? (fun n => n.id == nid) with
      | none => .error (.unauthorized "Invalid agent token")
      | some n => .ok n

/-- C9 counterexample: the signed payload contains exactly the node id
and the literal type claim — there is no tenant id claim. -/
theorem agentToken_no_tenant_claim_cex :
    (generateAgentToken "n1" "sec" 0).claims =
      [("nodeId", "n1"), ("type", "agent")] ∧
    (generateAgentToken "n1" "sec" 0).claims.lookup "tenantId" = none :=
  ⟨rfl, rfl⟩

/-- C9 (amended): every issued agent credential is signed, carries the
node id and the literal `type = agent` claim (but no tenant id claim),
expires 30 days after issuance, and verifying it within that window
resolves back to the same node. -/
theorem agentToken_issuance (nodeId secret : String) (now now' : Nat)
    (db : List Node) (node : Node)
    (hfind : db.find? (fun n => n.id == nodeId) = some node)
    (hnow : now' < now + thirtyDaysSeconds) :
    (generateAgentToken nodeId secret now).claims.lookup "nodeId" = some nodeId ∧
    (generateAgentToken nodeId secret now).claims.lookup "tenantId" = none ∧
    (generateAgentToken nodeId secret now).exp -
        (generateAgentToken nodeId secret now).iat = thirtyDaysSeconds ∧
    authenticateAgent db (generateAgentToken nodeId secret now) secret now' =
      .ok node := by
  refine ⟨rfl, rfl, by simp [generateAgentToken], ?_⟩
  unfold authenticateAgent jwtVerify
  dsimp only [generateAgentToken]
  rw [if_pos rfl, if_pos hnow]
  dsimp only
  rw [show List.lookup "nodeId" [("nodeId", nodeId), ("type", "agent")] =
      some nodeId from rfl]
  dsimp only
  rw [hfind]

/-- C9 amended-claim witness: a concrete credential resolves back to
its node. -/
theorem agentToken_issuance_witness :
    (generateAgentToken "n1" "sec" 0).claims.lookup "nodeId" = some "n1" ∧
    (generateAgentToken "n1" "sec" 0).claims.lookup "tenantId" = none ∧
    (generateAgentToken "n1" "sec" 0).exp -
        (generateAgentToken "n1" "sec" 0).iat = thirtyDaysSeconds ∧
    authenticateAgent [cNode] (generateAgentToken "n1" "sec" 0) "sec" 5 =
      .ok cNode :=
  agentToken_issuance "n1" "sec" 0 5 [cNode] cNode (by rfl) (by decide)

/-! ## Orchestration Client retries (`pterodactyl.service.ts`,
PterodactylService.makeRequest) -/

deriving instance DecidableEq for Except

/-- Outcome of one HTTP attempt: a response body, or an axios error
carrying an optional HTTP status (none for pure network failures). -/
inductive ReqOutcome (α : Type) where
  | ok (data : α)
  | fail (status : Option Nat) (msg : String)
deriving DecidableEq, Repr

/-- What a `makeRequest` call did: its outcome (an `HttpException` is a
status plus a message), the backoff delays it slept, and how many
attempts it made. -/
structure ReqResult (α : Type) where
  result : Except (Nat × String) α
  delays : List Nat
  attempts : Nat
deriving DecidableEq, Repr

/-- The retry loop of `makeRequest`: on any error — regardless of its
HTTP status — either rethrow (last attempt) or sleep
`2 ^ attempt * 1000` milliseconds and try again. -/
def makeRequestLoop {α : Type} (respond : Nat → ReqOutcome α)
    (attempt remaining : Nat) : ReqResult α :=
  match respond attempt with
  | .ok a => { result := .ok a, delays := [], attempts := 1 }
  | .fail st msg =>
    match remaining with
    | 0 =>
      { result := .error (st.getD 500, "Pterodactyl API request failed: " ++ msg),
        delays := [], attempts := 1 }
    | r + 1 =>
      let rest := makeRequestLoop respond (attempt + 1) r
      { result := rest.result,
        delays := (2 ^ attempt * 1000) :: rest.delays,
        attempts := rest.attempts + 1 }

/-- `PterodactylService.makeRequest` with its retry bound (the callers
all use the default of 3). -/
def makeRequest {α : Type} (respond : Nat → ReqOutcome α) (retries : Nat) :
    ReqResult α :=
  makeRequestLoop respond 1 (retries - 1)

/-- An endpoint that always answers HTTP 400. -/
def respond400 (_attempt : Nat) : ReqOutcome Unit :=
  .fail (some 400) "Request failed with status code 400"

/-- C8 counterexample: a constant HTTP 400 is retried like any other
failure — three attempts and two backoff sleeps, not an immediate
permanent error. -/
theorem makeRequest_400_retried_cex :
    (makeRequest respond400 3).attempts = 3 ∧
    (makeRequest respond400 3).delays = [2000, 4000] ∧
    (makeRequest respond400 3).result =
      .error (400, "Pterodactyl API request failed: Request failed with status code 400") :=
  ⟨rfl, rfl, rfl⟩

/-- C8 (amended): every failure — HTTP 4xx included — is retried the
same way: a call makes exactly 3 attempts with doubling backoff (2s
then 4s) and then surfaces the last error as an `HttpException` with
the response status (500 when there is none). -/
theorem makeRequest_retries_exhausted {α : Type} (respond : Nat → ReqOutcome α)
    (s₁ s₂ s₃ : Option Nat) (m₁ m₂ m₃ : String)
    (h1 : respond 1 = .fail s₁ m₁) (h2 : respond 2 = .fail s₂ m₂)
    (h3 : respond 3 = .fail s₃ m₃) :
    makeRequest respond 3 =
      { result := .error (s₃.getD 500, "Pterodactyl API request failed: " ++ m₃),
        delays := [2000, 4000], attempts := 3 } := by
  unfold makeRequest
  show makeRequestLoop respond 1 2 = _
  unfold makeRequestLoop
  rw [h1]
  unfold makeRequestLoop
  rw [h2]
  unfold makeRequestLoop
  rw [h3]
  rfl

/-- C8 amended-claim witness: a constant HTTP 503 exhausts exactly 3
attempts with the 2s/4s backoff. -/
theorem makeRequest_retries_exhausted_witness :
    makeRequest (fun _ => (ReqOutcome.fail (some 503)
        "Request failed with status code 503" : ReqOutcome Unit)) 3 =
      { result := .error (503,
          "Pterodactyl API request failed: Request failed with status code 503"),
        delays := [2000, 4000], attempts := 3 } :=
  makeRequest_retries_exhausted _ (some 503) (some 503) (some 503) _ _ _
    rfl rfl rfl

/-! ## Node lifecycle transition system (C4)

The server-side operations as atomic steps over the node table, the
metric table and the set of issued agent credentials.  Credential
issuance on successful enrollment is modelled from the spec: the
`/agent/enroll` controller that wires `enrollNode` to
`generateAgentToken` is not among the sources (the Go agent calls it
and stores the returned `auth_token`), and the spec says a successful
consumption "issues an Auth Credential scoped to this node id". -/

/-- The node created by `NodesService.generateEnrollmentToken`
(`prisma.node.create` with a fresh id, placeholder fields, `pending`
status and a 24-hour enrollment window). -/
def pendingNode (id tenantId token : String) (now : Nat) : Node :=
  { id := id, tenantId := tenantId, name := "Pending Node", fqdn := "pending",
    publicIp := "0.0.0.0", privateIp := none, cpuCores := 0, memoryMb := 0,
    diskGb := 0, status := .pending, enrollmentToken := some token,
    enrollmentExpiresAt := some (now + 86400), pterodactylId := none,
    locationId := none, daemonToken := none, lastHeartbeat := none,
    agentVersion := none, wingsVersion := none }

structure Sys where
  nodes : List Node
  metrics : List MetricRow
  creds : List String
deriving DecidableEq, Repr

/-- One server-side operation.  `genToken` is
`generateEnrollmentToken` (fresh database id), `enroll` a successful
`enrollNode` together with the spec-modelled credential issuance, and
`heartbeat` a `handleHeartbeat` gated — as in `AgentController` — by a
credential for the node. -/
inductive Step : Sys → Sys → Prop where
  | genToken (s : Sys) (id tenantId token : String) (now : Nat)
      (hfresh : ∀ n ∈ s.nodes, n.id ≠ id) :
      Step s ⟨s.nodes ++ [pendingNode id tenantId token now], s.metrics, s.creds⟩
  | enroll (s : Sys) (token : String) (now : Nat) (d : NodeData)
      (env : PteroEnv) (encKey : Nat) (nonceE : List Nat)
      (db' : List Node) (resp : EnrollResponse)
      (hok : enrollNode s.nodes token now d env encKey nonceE = .ok (db', resp)) :
      Step s ⟨db', s.metrics, s.creds ++ [resp.nodeId]⟩
  | heartbeat (s : Sys) (id : String) (p : HeartbeatPayload) (now : Nat)
      (hcred : id ∈ s.creds) :
      Step s ⟨(handleHeartbeat ⟨s.nodes, s.metrics⟩ id p now).nodes,
              (handleHeartbeat ⟨s.nodes, s.metrics⟩ id p now).metrics,
              s.creds⟩

def initSys : Sys := ⟨[], [], []⟩

inductive Reachable : Sys → Prop where
  | init : Reachable initSys
  | step {s s' : Sys} : Reachable s → Step s s' → Reachable s'

/-- Invariant: node ids are unique, every issued credential references
an existing node, and no credentialed node is still `pending`. -/
def sysInv (s : Sys) : Prop :=
  (s.nodes.map Node.id).Nodup ∧
  (∀ c ∈ s.creds, ∃ n ∈ s.nodes, n.id = c) ∧
  (∀ c ∈ s.creds, ∀ n ∈ s.nodes, n.id = c → n.status ≠ .pending)

theorem enrollApplyFn_id (node : Node) (d : NodeData) (env : PteroEnv)
    (encKey : Nat) (nonceE : List Nat) (n : Node) :
    (enrollApplyFn node d env encKey nonceE n).id = n.id := by
  unfold enrollApplyFn
  by_cases h : n.id = node.id
  · rw [if_pos h]
  · rw [if_neg h]

theorem enrollApply_id_map (db : List Node) (node : Node) (d : NodeData)
    (env : PteroEnv) (encKey : Nat) (nonceE : List Nat) :
    (enrollApply db node d env encKey nonceE).map Node.id = db.map Node.id := by
  unfold enrollApply
  rw [List.map_map]
  apply List.map_congr_left
  intro n _
  simp only [Function.comp_apply]
  exact enrollApplyFn_id node d env encKey nonceE n

theorem hb_fn_id (nodeId : String) (p : HeartbeatPayload) (now : Nat)
    (n : Node) :
    (if n.id = nodeId then hbNodeUpdate n p now else n).id = n.id := by
  by_cases h : n.id = nodeId
  · rw [if_pos h]; rfl
  · rw [if_neg h]

theorem enrollNode_ok_inv {db : List Node} {token : String} {now : Nat}
    {d : NodeData} {env : PteroEnv} {encKey : Nat} {nonceE : List Nat}
    {db' : List Node} {resp : EnrollResponse}
    (h : enrollNode db token now d env encKey nonceE = .ok (db', resp)) :
    ∃ node, enrollLookup db token now = .ok node ∧
      db' = enrollApply db node d env encKey nonceE ∧
      resp.nodeId = node.id := by
  unfold enrollNode at h
  cases hl : enrollLookup db token now with
  | error e => rw [hl] at h; exact absurd h (by simp)
  | ok node =>
    rw [hl] at h
    injection h with h'
    have ha := congrArg Prod.fst h'
    have hb := congrArg Prod.snd h'
    simp only [enrollFinish] at ha hb
    exact ⟨node, rfl, ha.symm, by rw [← hb]⟩

theorem enrollLookup_ok_mem {db : List Node} {token : String} {now : Nat}
    {node : Node} (h : enrollLookup db token now = .ok node) : node ∈ db := by
  unfold enrollLookup at h
  cases hf : db.find? (fun n => n.enrollmentToken == some token) with
  | none => rw [hf] at h; exact absurd h (by simp)
  | some n' =>
    rw [hf] at h
    dsimp only at h
    split at h
    · exact absurd h (by simp)
    · injection h with h'
      subst h'
      exact List.mem_of_find?_eq_some hf

theorem eq_of_mem_of_nodup_ids {l : List Node}
    (hnd : (l.map Node.id).Nodup) {a b : Node}
    (ha : a ∈ l) (hb : b ∈ l) (hid : b.id = a.id) : b = a := by
  induction l with
  | nil => simp at ha
  | cons c t ih =>
    simp only [List.map_cons, List.nodup_cons] at hnd
    obtain ⟨hcid, hndt⟩ := hnd
    rcases List.mem_cons.mp ha with hac | hat
    · rcases List.mem_cons.mp hb with hbc | hbt
      · rw [hbc, hac]
      · exact absurd (show c.id ∈ List.map Node.id t from
          List.mem_map.mpr ⟨b, hbt, show b.id = c.id by rw [hid, hac]⟩) hcid
    · rcases List.mem_cons.mp hb with hbc | hbt
      · exact absurd (show c.id ∈ List.map Node.id t from
          List.mem_map.mpr ⟨a, hat, show a.id = c.id by rw [← hid, hbc]⟩) hcid
      · exact ih hndt hat hbt

theorem step_inv {s s' : Sys} (hstep : Step s s') (hinv : sysInv s) :
    sysInv s' := by
  obtain ⟨hnd, hex, hbound⟩ := hinv
  cases hstep with
  | genToken id tenantId token now hfresh =>
    refine ⟨?_, ?_, ?_⟩
    · simp only [List.map_append, List.map_cons, List.map_nil]
      rw [List.nodup_append]
      refine ⟨hnd, by simp, ?_⟩
      intro x hx hx'
      simp only [List.mem_singleton] at hx'
      subst hx'
      obtain ⟨n, hn, hnid⟩ := List.mem_map.mp hx
      exact hfresh n hn hnid
    · intro c hc
      obtain ⟨n, hn, hnid⟩ := hex c hc
      exact ⟨n, List.mem_append_left _ hn, hnid⟩
    · intro c hc n hn' hnid
      rcases List.mem_append.mp hn' with hno | hnew
      · exact hbound c hc n hno hnid
      · simp only [List.mem_singleton] at hnew
        subst hnew
        exfalso
        obtain ⟨n₀, hn₀, hid₀⟩ := hex c hc
        exact hfresh n₀ hn₀ (by rw [hid₀, ← hnid]; rfl)
  | enroll token now d env encKey nonceE db' resp hok =>
    obtain ⟨node, hlook, hdb', hresp⟩ := enrollNode_ok_inv hok
    subst hdb'
    have hmem := enrollLookup_ok_mem hlook
    refine ⟨?_, ?_, ?_⟩
    · show ((enrollApply s.nodes node d env encKey nonceE).map Node.id).Nodup
      rw [enrollApply_id_map]
      exact hnd
    · intro c hc
      rcases List.mem_append.mp hc with hcold | hcnew
      · obtain ⟨n, hn, hnid⟩ := hex c hcold
        exact ⟨enrollApplyFn node d env encKey nonceE n,
          List.mem_map_of_mem _ hn, by rw [enrollApplyFn_id]; exact hnid⟩
      · simp only [List.mem_singleton] at hcnew
        subst hcnew
        exact ⟨enrollApplyFn node d env encKey nonceE node,
          List.mem_map_of_mem _ hmem, by rw [enrollApplyFn_id, hresp]⟩
    · intro c hc n' hn' hnid
      obtain ⟨n₀, hn₀, hfn⟩ := List.mem_map.mp hn'
      by_cases hcase : n₀.id = node.id
      · have hst : n'.status = .installing := by
          rw [← hfn]
          unfold enrollApplyFn
          rw [if_pos hcase]
        rw [hst]
        simp
      · have heq : n' = n₀ := by
          rw [← hfn]
          unfold enrollApplyFn
          rw [if_neg hcase]
        subst heq
        rcases List.mem_append.mp hc with hcold | hcnew
        · exact hbound c hcold n' hn₀ hnid
        · simp only [List.mem_singleton] at hcnew
          subst hcnew
          exact absurd (hnid.trans hresp) hcase
  | heartbeat id p now hcred =>
    refine ⟨?_, ?_, ?_⟩
    · show (((handleHeartbeat ⟨s.nodes, s.metrics⟩ id p now).nodes).map Node.id).Nodup
      simp only [handleHeartbeat]
      rw [List.map_map]
      rw [List.map_congr_left (fun n _ => by
        simp only [Function.comp_apply]
        exact hb_fn_id id p now n)]
      exact hnd
    · intro c hc
      obtain ⟨n, hn, hnid⟩ := hex c hc
      refine ⟨if n.id = id then hbNodeUpdate n p now else n, ?_, ?_⟩
      · simp only [handleHeartbeat]
        exact List.mem_map_of_mem _ hn
      · rw [hb_fn_id]; exact hnid
    · intro c hc n' hn' hnid
      simp only [handleHeartbeat] at hn'
      obtain ⟨n₀, hn₀, hfn⟩ := List.mem_map.mp hn'
      by_cases hcase : n₀.id = id
      · have hst : n'.status = .online := by
          rw [← hfn, if_pos hcase]
          rfl
        rw [hst]
        simp
      · have heq : n' = n₀ := by rw [← hfn, if_neg hcase]
        subst heq
        exact hbound c hc n' hn₀ hnid

theorem reachable_inv {s : Sys} (h : Reachable s) : sysInv s := by
  induction h with
  | init => exact ⟨by simp [initSys], by simp [initSys], by simp [initSys]⟩
  | step _ hstep ih => exact step_inv hstep ih

/-- C4 (amended): over reachable states — where heartbeats require a
credential and credentials are only issued at enrollment, which first
moves the node to `installing` — no single operation takes a node from
`pending` to `online`; `handleHeartbeat` itself, however, applied
directly to a node still `pending`, does set it `online` (see the
counterexample). -/
theorem pending_no_direct_online {s s' : Sys} (hr : Reachable s)
    (hstep : Step s s') (n n' : Node) (hn : n ∈ s.nodes)
    (hp : n.status = .pending) (hn' : n' ∈ s'.nodes) (hid : n'.id = n.id) :
    n'.status ≠ .online := by
  obtain ⟨hnd, hex, hbound⟩ := reachable_inv hr
  cases hstep with
  | genToken id tenantId token now hfresh =>
    rcases List.mem_append.mp hn' with hold | hnew
    · have heq := eq_of_mem_of_nodup_ids hnd hn hold hid
      rw [heq, hp]
      simp
    · simp only [List.mem_singleton] at hnew
      subst hnew
      simp [pendingNode]
  | enroll token now d env encKey nonceE db' resp hok =>
    obtain ⟨node, hlook, hdb', hresp⟩ := enrollNode_ok_inv hok
    subst hdb'
    obtain ⟨n₀, hn₀, hfn⟩ := List.mem_map.mp hn'
    by_cases hcase : n₀.id = node.id
    · have hst : n'.status = .installing := by
        rw [← hfn]
        unfold enrollApplyFn
        rw [if_pos hcase]
      rw [hst]
      simp
    · have heq : n' = n₀ := by
        rw [← hfn]
        unfold enrollApplyFn
        rw [if_neg hcase]
      subst heq
      have heq₀ := eq_of_mem_of_nodup_ids hnd hn hn₀ hid
      rw [heq₀, hp]
      simp
  | heartbeat id p now hcred =>
    have hn'' := hn'
    simp only [handleHeartbeat] at hn''
    obtain ⟨n₀, hn₀, hfn⟩ := List.mem_map.mp hn''
    have hn₀id : n₀.id = n.id := by
      rw [← hb_fn_id id p now n₀, hfn]
      exact hid
    have hn₀eq : n₀ = n := eq_of_mem_of_nodup_ids hnd hn hn₀ hn₀id
    by_cases hcase : n₀.id = id
    · exfalso
      exact hbound id hcred n hn (by rw [← hn₀eq]; exact hcase) hp
    · have heq : n' = n₀ := by rw [← hfn, if_neg hcase]
      rw [heq, hn₀eq, hp]
      simp

/-- C4 counterexample: `handleHeartbeat` applied to a node whose status
is still `pending` yields `online` — the update has no status guard, so
the pending-to-online exclusion rests solely on credential gating. -/
theorem pending_heartbeat_online_cex :
    cNode.status = .pending ∧
    (handleHeartbeat ⟨[cNode], []⟩ "n1" cPayload 9).nodes.map Node.status =
      [.online] :=
  ⟨rfl, rfl⟩

/-- C4 amended-claim witness: from a reachable one-pending-node state,
the enroll step leaves every row with the pending node's id in a
non-online status. -/
theorem pending_no_direct_online_witness :
    ((enrollApply ([] ++ [pendingNode "n1" "t1" "tok" 0])
        (pendingNode "n1" "t1" "tok" 0) cData cEnv 5 [1]).headD cNode).status ≠
      .online := by
  have hstep1 : Step initSys
      ⟨[] ++ [pendingNode "n1" "t1" "tok" 0], [], []⟩ :=
    Step.genToken initSys "n1" "t1" "tok" 0 (by intro n hn; simp [initSys] at hn)
  have hr : Reachable ⟨[] ++ [pendingNode "n1" "t1" "tok" 0], [], []⟩ :=
    Reachable.step Reachable.init hstep1
  have hok : enrollNode ([] ++ [pendingNode "n1" "t1" "tok" 0]) "tok" 5 cData
      cEnv 5 [1] =
      .ok (enrollApply ([] ++ [pendingNode "n1" "t1" "tok" 0])
            (pendingNode "n1" "t1" "tok" 0) cData cEnv 5 [1],
          { nodeId := "n1", daemonConfig := "cfg" }) := by rfl
  have hstep2 : Step ⟨[] ++ [pendingNode "n1" "t1" "tok" 0], [], []⟩
      ⟨enrollApply ([] ++ [pendingNode "n1" "t1" "tok" 0])
          (pendingNode "n1" "t1" "tok" 0) cData cEnv 5 [1], [],
        [] ++ ["n1"]⟩ :=
    Step.enroll _ "tok" 5 cData cEnv 5 [1] _ _ hok
  exact pending_no_direct_online hr hstep2 (pendingNode "n1" "t1" "tok" 0) _
    (by simp) (by rfl) (by decide) (by decide)

end Multihost
